import Mathlib

/-!
Shallow embedding of the hummingbot C++ order-book core
(`hummingbot/core/cpp/OrderBookEntry.cpp`, `hummingbot/core/cpp/LimitOrder.cpp`,
`hummingbot/core/cpp/OrderExpirationEntry.cpp`, and the historical
`wings/cpp/LimitOrder.cpp` variant).

An order-book side (a `std::set<OrderBookEntry>`, ordered by `operator<`,
which compares by price alone) is modelled as a list of entries in the
iteration order of the set, ascending by price.  `double` prices and amounts are
modelled as rationals, `int64_t` update ids as integers, and the Python
numeric handles held by `LimitOrder` as rationals (the specification only
assumes a strictly totally ordered host numeric type for them).

The two resolver loops (`truncateOverlapEntriesDex`,
`truncateOverlapEntriesCentralised`) share an identical `while` body and
differ only in the tie-break comparison.  The body is embedded once as
`crossStep`, parameterised by the tie-break test, and the loop is embedded
as a fuel recursion (`truncateLoop`) started with fuel equal to the total
number of entries; every iteration removes exactly one entry, so this fuel
is never exhausted (proved below), making the embedding exactly the C++
loop.
-/

namespace Hummingbot

/-- `OrderBookEntry` from `hummingbot/core/cpp/OrderBookEntry.h`:
price, amount (`double`) and an `int64_t` update id. -/
structure OrderBookEntry where
  price : ℚ
  amount : ℚ
  updateId : ℤ
deriving DecidableEq

/-- `operator<(OrderBookEntry const &, OrderBookEntry const &)`:
entries compare by `price` alone. -/
def entryLt (a b : OrderBookEntry) : Prop :=
  a.price < b.price

instance : DecidableRel entryLt :=
  fun a b => inferInstanceAs (Decidable (a.price < b.price))

/-- A book side listed in the iteration order of the `std::set`: strictly
ascending under `operator<` (so at most one entry per price). -/
def OrderedBook (l : List OrderBookEntry) : Prop :=
  l.Pairwise entryLt

instance (l : List OrderBookEntry) : Decidable (OrderedBook l) :=
  inferInstanceAs (Decidable (l.Pairwise entryLt))

/-- One iteration of the `while` loop shared by `truncateOverlapEntriesDex`
and `truncateOverlapEntriesCentralised` in `OrderBookEntry.cpp`.
`bidBook.getLast?` is `*bidBook.rbegin()` (the top bid), `askBook.head?`
is `*askBook.begin()` (the top ask).  Returns `none` when the loop stops
(an iterator is at its end, or `topBid.price >= topAsk.price` fails);
otherwise the policy test `removeAsk topBid topAsk` decides whether
`askBook.erase(askIterator++)` or the erase through
`(std::next(bidIterator)).base()` runs. -/
def crossStep (removeAsk : OrderBookEntry → OrderBookEntry → Bool)
    (bidBook askBook : List OrderBookEntry) :
    Option (List OrderBookEntry × List OrderBookEntry) :=
  match bidBook.getLast?, askBook.head? with
  | some topBid, some topAsk =>
    if topBid.price ≥ topAsk.price then
      if removeAsk topBid topAsk then some (bidBook, askBook.tail)
      else some (bidBook.dropLast, askBook)
    else none
  | _, _ => none

/-- The resolver `while` loop, run with explicit fuel. -/
def truncateLoop (removeAsk : OrderBookEntry → OrderBookEntry → Bool) :
    Nat → List OrderBookEntry → List OrderBookEntry →
    List OrderBookEntry × List OrderBookEntry
  | 0, bidBook, askBook => (bidBook, askBook)
  | fuel + 1, bidBook, askBook =>
    match crossStep removeAsk bidBook askBook with
    | none => (bidBook, askBook)
    | some (bidBook2, askBook2) => truncateLoop removeAsk fuel bidBook2 askBook2

/-- Number of loop iterations that perform a removal, with explicit fuel. -/
def truncateLoopSteps (removeAsk : OrderBookEntry → OrderBookEntry → Bool) :
    Nat → List OrderBookEntry → List OrderBookEntry → Nat
  | 0, _, _ => 0
  | fuel + 1, bidBook, askBook =>
    match crossStep removeAsk bidBook askBook with
    | none => 0
    | some (bidBook2, askBook2) => truncateLoopSteps removeAsk fuel bidBook2 askBook2 + 1

/-- The decentralised-venue tie-break of `truncateOverlapEntriesDex`:
`topBid.amount*topBid.price > topAsk.amount*topAsk.price` removes the ask. -/
def dexRemoveAsk (topBid topAsk : OrderBookEntry) : Bool :=
  decide (topBid.amount * topBid.price > topAsk.amount * topAsk.price)

/-- The centralised-venue tie-break of `truncateOverlapEntriesCentralised`:
`topBid.updateId > topAsk.updateId` removes the ask. -/
def centralisedRemoveAsk (topBid topAsk : OrderBookEntry) : Bool :=
  decide (topBid.updateId > topAsk.updateId)

/-- One iteration of the `truncateOverlapEntriesDex` loop. -/
def crossStepDex : List OrderBookEntry → List OrderBookEntry →
    Option (List OrderBookEntry × List OrderBookEntry) :=
  crossStep dexRemoveAsk

/-- One iteration of the `truncateOverlapEntriesCentralised` loop. -/
def crossStepCentralised : List OrderBookEntry → List OrderBookEntry →
    Option (List OrderBookEntry × List OrderBookEntry) :=
  crossStep centralisedRemoveAsk

/-- `truncateOverlapEntriesDex(bidBook, askBook)` from `OrderBookEntry.cpp`. -/
def truncateOverlapEntriesDex (bidBook askBook : List OrderBookEntry) :
    List OrderBookEntry × List OrderBookEntry :=
  truncateLoop dexRemoveAsk (bidBook.length + askBook.length) bidBook askBook

/-- `truncateOverlapEntriesCentralised(bidBook, askBook)` from
`OrderBookEntry.cpp`. -/
def truncateOverlapEntriesCentralised (bidBook askBook : List OrderBookEntry) :
    List OrderBookEntry × List OrderBookEntry :=
  truncateLoop centralisedRemoveAsk (bidBook.length + askBook.length) bidBook askBook

/-- Iteration count of the `truncateOverlapEntriesDex` loop. -/
def truncateDexIterations (bidBook askBook : List OrderBookEntry) : Nat :=
  truncateLoopSteps dexRemoveAsk (bidBook.length + askBook.length) bidBook askBook

/-- Iteration count of the `truncateOverlapEntriesCentralised` loop. -/
def truncateCentralisedIterations (bidBook askBook : List OrderBookEntry) : Nat :=
  truncateLoopSteps centralisedRemoveAsk (bidBook.length + askBook.length) bidBook askBook

/-- `truncateOverlapEntries(bidBook, askBook, dex)` from `OrderBookEntry.cpp`:
dispatches on `dex != 0`. -/
def truncateOverlapEntries (bidBook askBook : List OrderBookEntry) (dex : ℤ) :
    List OrderBookEntry × List OrderBookEntry :=
  if dex ≠ 0 then truncateOverlapEntriesDex bidBook askBook
  else truncateOverlapEntriesCentralised bidBook askBook

/-- The loop guard together with the cross test: both iterators valid and
`topBid.price >= topAsk.price`. -/
def crossExists (bidBook askBook : List OrderBookEntry) : Bool :=
  match bidBook.getLast?, askBook.head? with
  | some topBid, some topAsk => decide (topBid.price ≥ topAsk.price)
  | _, _ => false

/-- `LimitOrder` from `hummingbot/core/cpp/LimitOrder.h` / `LimitOrder.cpp`.
The Python numeric handles (`price`, `quantity`, `filledQuantity`) are
modelled as rationals. -/
structure LimitOrder where
  clientOrderID : String
  tradingPair : String
  isBuy : Bool
  baseCurrency : String
  quoteCurrency : String
  price : ℚ
  quantity : ℚ
  filledQuantity : ℚ
  creationTimestamp : ℤ
  status : ℤ
  position : String
deriving DecidableEq

/-- `operator<(LimitOrder const &, LimitOrder const &)` from
`hummingbot/core/cpp/LimitOrder.cpp`: when the prices compare equal
(`Py_EQ`), fall back to `clientOrderID` comparison; otherwise compare the
prices (`Py_LT`). -/
def ltLimitOrder (a b : LimitOrder) : Prop :=
  if a.price = b.price then a.clientOrderID < b.clientOrderID
  else a.price < b.price

instance (a b : LimitOrder) : Decidable (ltLimitOrder a b) := by
  unfold ltLimitOrder
  infer_instance

/-- `operator<(LimitOrder const &, LimitOrder const &)` from
`wings/cpp/LimitOrder.cpp`: price comparison (`Py_LT`) only, no tie-break. -/
def ltLimitOrderWings (a b : LimitOrder) : Prop :=
  a.price < b.price

instance (a b : LimitOrder) : Decidable (ltLimitOrderWings a b) :=
  inferInstanceAs (Decidable (a.price < b.price))

/-- `OrderExpirationEntry` from
`hummingbot/core/cpp/OrderExpirationEntry.cpp`.  The `double` timestamps
are modelled as rationals. -/
structure OrderExpirationEntry where
  tradingPair : String
  orderId : String
  timestamp : ℚ
  expiration_timestamp : ℚ
deriving DecidableEq

/-- `operator<(OrderExpirationEntry const &, OrderExpirationEntry const &)`:
on equal `expiration_timestamp`, compare `orderId`; otherwise compare
`expiration_timestamp`. -/
def ltOrderExpirationEntry (a b : OrderExpirationEntry) : Prop :=
  if a.expiration_timestamp = b.expiration_timestamp then a.orderId < b.orderId
  else a.expiration_timestamp < b.expiration_timestamp

instance (a b : OrderExpirationEntry) : Decidable (ltOrderExpirationEntry a b) := by
  unfold ltOrderExpirationEntry
  infer_instance

/-- Sorted insert-or-overwrite into a book side at the price of the new entry,
keeping the ascending-price iteration order of the `std::set`. -/
def insertEntry : List OrderBookEntry → OrderBookEntry → List OrderBookEntry
  | [], e => [e]
  | x :: rest, e =>
    if e.price < x.price then e :: x :: rest
    else if x.price = e.price then e :: rest
    else x :: insertEntry rest e

/-- Modelled from the spec: the feed-update application
`insertOrUpdate(side, price, amount, updateId)` of §4.1 is not among the
C++ sources under verification (only the entry type, its `operator<` and
the cross resolver are); its contract is taken from the words of
the specification: if `amount == 0`, erase any existing entry at `price` (a no-op if
absent); otherwise insert or overwrite the entry at `price`, replacing
`amount` and `updateId`. -/
def insertOrUpdate (side : List OrderBookEntry) (price amount : ℚ)
    (updateId : ℤ) : List OrderBookEntry :=
  if amount = 0 then side.filter (fun e => decide (e.price ≠ price))
  else insertEntry side ⟨price, amount, updateId⟩


theorem mem_of_getLast?_eq_some {l : List OrderBookEntry} {e : OrderBookEntry}
    (h : l.getLast? = some e) : e ∈ l := by
  cases hl : l with
  | nil => subst hl; simp at h
  | cons x xs =>
    subst hl
    rw [List.getLast?_eq_getLast _ (List.cons_ne_nil x xs)] at h
    injection h with h
    subst h
    exact List.getLast_mem _

theorem ne_nil_of_getLast?_eq_some {l : List OrderBookEntry} {e : OrderBookEntry}
    (h : l.getLast? = some e) : l ≠ [] := by
  intro hl
  subst hl
  simp at h

theorem ne_nil_of_head?_eq_some {l : List OrderBookEntry} {e : OrderBookEntry}
    (h : l.head? = some e) : l ≠ [] := by
  intro hl
  subst hl
  simp at h

theorem crossStep_some_shape {removeAsk : OrderBookEntry → OrderBookEntry → Bool}
    {bidBook askBook bidBook2 askBook2 : List OrderBookEntry}
    (h : crossStep removeAsk bidBook askBook = some (bidBook2, askBook2)) :
    (bidBook2 = bidBook ∧ askBook2 = askBook.tail ∧ askBook ≠ []) ∨
    (bidBook2 = bidBook.dropLast ∧ askBook2 = askBook ∧ bidBook ≠ []) := by
  unfold crossStep at h
  cases hb : bidBook.getLast? with
  | none => rw [hb] at h; cases askBook.head? <;> simp at h
  | some topBid =>
    cases ha : askBook.head? with
    | none => rw [hb, ha] at h; simp at h
    | some topAsk =>
      rw [hb, ha] at h
      dsimp only at h
      split_ifs at h with hc hr
      · simp only [Option.some.injEq, Prod.mk.injEq] at h
        exact Or.inl ⟨h.1.symm, h.2.symm, ne_nil_of_head?_eq_some ha⟩
      · simp only [Option.some.injEq, Prod.mk.injEq] at h
        exact Or.inr ⟨h.1.symm, h.2.symm, ne_nil_of_getLast?_eq_some hb⟩

theorem crossStep_some_length {removeAsk : OrderBookEntry → OrderBookEntry → Bool}
    {bidBook askBook bidBook2 askBook2 : List OrderBookEntry}
    (h : crossStep removeAsk bidBook askBook = some (bidBook2, askBook2)) :
    bidBook2.length + askBook2.length + 1 = bidBook.length + askBook.length := by
  rcases crossStep_some_shape h with ⟨rfl, rfl, ha⟩ | ⟨rfl, rfl, hb⟩
  · have : askBook.length ≠ 0 := fun h0 => ha (List.length_eq_zero.mp h0)
    rw [List.length_tail]
    omega
  · have : bidBook.length ≠ 0 := fun h0 => hb (List.length_eq_zero.mp h0)
    rw [List.length_dropLast]
    omega

theorem crossStep_none_iff {removeAsk : OrderBookEntry → OrderBookEntry → Bool}
    {bidBook askBook : List OrderBookEntry} :
    crossStep removeAsk bidBook askBook = none ↔ crossExists bidBook askBook = false := by
  unfold crossStep crossExists
  cases hb : bidBook.getLast? with
  | none => cases askBook.head? <;> simp
  | some topBid =>
    cases ha : askBook.head? with
    | none => simp
    | some topAsk =>
      dsimp only
      split_ifs with hc hr <;> simp [hc]

theorem truncateLoop_of_none {removeAsk : OrderBookEntry → OrderBookEntry → Bool}
    {fuel : Nat} {bidBook askBook : List OrderBookEntry}
    (h : crossStep removeAsk bidBook askBook = none) :
    truncateLoop removeAsk fuel bidBook askBook = (bidBook, askBook) := by
  cases fuel with
  | zero => rfl
  | succ n => unfold truncateLoop; rw [h]

theorem truncateLoop_post (removeAsk : OrderBookEntry → OrderBookEntry → Bool) :
    ∀ (fuel : Nat) (bidBook askBook : List OrderBookEntry),
      bidBook.length + askBook.length ≤ fuel →
      crossStep removeAsk (truncateLoop removeAsk fuel bidBook askBook).1
        (truncateLoop removeAsk fuel bidBook askBook).2 = none
  | 0, bidBook, askBook, hf => by
    have hb : bidBook = [] := List.length_eq_zero.mp (by omega)
    have ha : askBook = [] := List.length_eq_zero.mp (by omega)
    subst hb; subst ha
    rfl
  | fuel + 1, bidBook, askBook, hf => by
    cases h : crossStep removeAsk bidBook askBook with
    | none =>
      unfold truncateLoop
      rw [h]
      exact h
    | some r =>
      obtain ⟨bidBook2, askBook2⟩ := r
      have hlen := crossStep_some_length h
      unfold truncateLoop
      rw [h]
      exact truncateLoop_post removeAsk fuel bidBook2 askBook2 (by omega)

theorem truncateLoop_append (removeAsk : OrderBookEntry → OrderBookEntry → Bool) :
    ∀ (fuel : Nat) (bidBook askBook : List OrderBookEntry),
      (∃ removed, (truncateLoop removeAsk fuel bidBook askBook).1 ++ removed = bidBook) ∧
      (∃ removed, removed ++ (truncateLoop removeAsk fuel bidBook askBook).2 = askBook)
  | 0, bidBook, askBook => ⟨⟨[], List.append_nil _⟩, ⟨[], List.nil_append _⟩⟩
  | fuel + 1, bidBook, askBook => by
    cases h : crossStep removeAsk bidBook askBook with
    | none =>
      unfold truncateLoop
      rw [h]
      exact ⟨⟨[], List.append_nil _⟩, ⟨[], List.nil_append _⟩⟩
    | some r =>
      obtain ⟨bidBook2, askBook2⟩ := r
      unfold truncateLoop
      rw [h]
      obtain ⟨⟨rb, hrb⟩, ⟨ra, hra⟩⟩ := truncateLoop_append removeAsk fuel bidBook2 askBook2
      rcases crossStep_some_shape h with ⟨rfl, rfl, hane⟩ | ⟨rfl, rfl, hbne⟩
      · refine ⟨⟨rb, hrb⟩, ?_⟩
        cases askBook with
        | nil => exact absurd rfl hane
        | cons x xs => exact ⟨x :: ra, by simpa using hra⟩
      · refine ⟨⟨rb ++ [bidBook.getLast hbne], ?_⟩, ⟨ra, hra⟩⟩
        rw [← List.append_assoc, hrb, List.dropLast_append_getLast hbne]

theorem truncateLoopSteps_spec (removeAsk : OrderBookEntry → OrderBookEntry → Bool) :
    ∀ (fuel : Nat) (bidBook askBook : List OrderBookEntry),
      truncateLoopSteps removeAsk fuel bidBook askBook +
        (truncateLoop removeAsk fuel bidBook askBook).1.length +
        (truncateLoop removeAsk fuel bidBook askBook).2.length =
      bidBook.length + askBook.length
  | 0, bidBook, askBook => by simp [truncateLoop, truncateLoopSteps]
  | fuel + 1, bidBook, askBook => by
    cases h : crossStep removeAsk bidBook askBook with
    | none =>
      unfold truncateLoop truncateLoopSteps
      rw [h]
      simp
    | some r =>
      obtain ⟨bidBook2, askBook2⟩ := r
      have hlen := crossStep_some_length h
      have hrec := truncateLoopSteps_spec removeAsk fuel bidBook2 askBook2
      unfold truncateLoop truncateLoopSteps
      rw [h]
      dsimp only
      omega


theorem ordered_getLast_max : ∀ {l : List OrderBookEntry} {topBid : OrderBookEntry},
    OrderedBook l → l.getLast? = some topBid → ∀ e ∈ l, e.price ≤ topBid.price
  | [], _, _, h => by simp at h
  | [x], topBid, _, h => by
    simp at h
    subst h
    intro e he
    simp at he
    subst he
    exact le_refl _
  | x :: y :: ys, topBid, hs, h => by
    rw [List.getLast?_cons_cons] at h
    intro e he
    have hx : ∀ e2 ∈ y :: ys, entryLt x e2 := (List.pairwise_cons.mp hs).1
    rcases List.mem_cons.mp he with rfl | he2
    · exact le_of_lt (hx topBid (mem_of_getLast?_eq_some h))
    · exact ordered_getLast_max (List.Pairwise.of_cons hs) h e he2

theorem ordered_head_min {l : List OrderBookEntry} {topAsk : OrderBookEntry}
    (hs : OrderedBook l) (h : l.head? = some topAsk) :
    ∀ e ∈ l, topAsk.price ≤ e.price := by
  cases l with
  | nil => simp at h
  | cons x xs =>
    simp at h
    subst h
    intro e he
    rcases List.mem_cons.mp he with rfl | he2
    · exact le_refl _
    · exact le_of_lt ((List.pairwise_cons.mp hs).1 e he2)

theorem truncateLoop_no_cross (removeAsk : OrderBookEntry → OrderBookEntry → Bool)
    (fuel : Nat) (bidBook askBook : List OrderBookEntry)
    (hf : bidBook.length + askBook.length ≤ fuel)
    (hbid : OrderedBook bidBook) (hask : OrderedBook askBook) :
    (truncateLoop removeAsk fuel bidBook askBook).1 = [] ∨
    (truncateLoop removeAsk fuel bidBook askBook).2 = [] ∨
    ∃ pb pa : ℚ,
      ((truncateLoop removeAsk fuel bidBook askBook).1.map OrderBookEntry.price).maximum = pb ∧
      ((truncateLoop removeAsk fuel bidBook askBook).2.map OrderBookEntry.price).minimum = pa ∧
      pb < pa := by
  have hpost := truncateLoop_post removeAsk fuel bidBook askBook hf
  obtain ⟨⟨rb, hrb⟩, ⟨ra, hra⟩⟩ := truncateLoop_append removeAsk fuel bidBook askBook
  set res := truncateLoop removeAsk fuel bidBook askBook with hres
  have hbid2 : OrderedBook res.1 := by
    rw [← hrb] at hbid
    exact (List.pairwise_append.mp hbid).1
  have hask2 : OrderedBook res.2 := by
    rw [← hra] at hask
    exact (List.pairwise_append.mp hask).2.1
  unfold crossStep at hpost
  cases hb : res.1.getLast? with
  | none => exact Or.inl (List.getLast?_eq_none_iff.mp hb)
  | some topBid =>
    cases ha : res.2.head? with
    | none => exact Or.inr (Or.inl (List.head?_eq_none_iff.mp ha))
    | some topAsk =>
      rw [hb, ha] at hpost
      dsimp only at hpost
      by_cases hc : topBid.price ≥ topAsk.price
      · rw [if_pos hc] at hpost
        split_ifs at hpost
      · refine Or.inr (Or.inr ⟨topBid.price, topAsk.price, ?_, ?_, lt_of_not_ge hc⟩)
        · refine List.maximum_eq_coe_iff.mpr ⟨?_, ?_⟩
          · exact List.mem_map.mpr ⟨topBid, mem_of_getLast?_eq_some hb, rfl⟩
          · intro q hq
            obtain ⟨e, he, rfl⟩ := List.mem_map.mp hq
            exact ordered_getLast_max hbid2 hb e he
        · refine List.minimum_eq_coe_iff.mpr ⟨?_, ?_⟩
          · exact List.mem_map.mpr ⟨topAsk, List.mem_of_mem_head? (by rw [ha]; rfl), rfl⟩
          · intro q hq
            obtain ⟨e, he, rfl⟩ := List.mem_map.mp hq
            exact ordered_head_min hask2 ha e he

/-- C1: after `truncateOverlapEntriesDex` or `truncateOverlapEntriesCentralised`
(dispatched through `truncateOverlapEntries`) returns, either at least one of
the two books is empty, or the maximum price in the bid book is strictly less
than the minimum price in the ask book: the no-cross invariant is restored. -/
theorem no_cross_invariant (dex : ℤ) (bidBook askBook : List OrderBookEntry)
    (hbid : OrderedBook bidBook) (hask : OrderedBook askBook) :
    (truncateOverlapEntries bidBook askBook dex).1 = [] ∨
    (truncateOverlapEntries bidBook askBook dex).2 = [] ∨
    ∃ pb pa : ℚ,
      ((truncateOverlapEntries bidBook askBook dex).1.map OrderBookEntry.price).maximum = pb ∧
      ((truncateOverlapEntries bidBook askBook dex).2.map OrderBookEntry.price).minimum = pa ∧
      pb < pa := by
  unfold truncateOverlapEntries truncateOverlapEntriesDex truncateOverlapEntriesCentralised
  split_ifs with hd
  · exact truncateLoop_no_cross dexRemoveAsk _ bidBook askBook (le_refl _) hbid hask
  · exact truncateLoop_no_cross centralisedRemoveAsk _ bidBook askBook (le_refl _) hbid hask

/-- C1 witness: a concrete crossed pair of ordered books. -/
theorem no_cross_invariant_witness :
    OrderedBook [⟨99, 2, 1⟩, ⟨100, 1, 5⟩] ∧ OrderedBook [⟨98, 1, 3⟩, ⟨101, 4, 3⟩] ∧
    ((truncateOverlapEntries [⟨99, 2, 1⟩, ⟨100, 1, 5⟩] [⟨98, 1, 3⟩, ⟨101, 4, 3⟩] 0).1 = [] ∨
     (truncateOverlapEntries [⟨99, 2, 1⟩, ⟨100, 1, 5⟩] [⟨98, 1, 3⟩, ⟨101, 4, 3⟩] 0).2 = [] ∨
     ∃ pb pa : ℚ,
       ((truncateOverlapEntries [⟨99, 2, 1⟩, ⟨100, 1, 5⟩] [⟨98, 1, 3⟩, ⟨101, 4, 3⟩] 0).1.map
           OrderBookEntry.price).maximum = pb ∧
       ((truncateOverlapEntries [⟨99, 2, 1⟩, ⟨100, 1, 5⟩] [⟨98, 1, 3⟩, ⟨101, 4, 3⟩] 0).2.map
           OrderBookEntry.price).minimum = pa ∧
       pb < pa) :=
  ⟨by decide, by decide,
    no_cross_invariant 0 [⟨99, 2, 1⟩, ⟨100, 1, 5⟩] [⟨98, 1, 3⟩, ⟨101, 4, 3⟩] (by decide) (by decide)⟩

/-- C7: the cross resolver is idempotent: a second call on the books produced
by a first call (under the same policy selector) changes nothing. -/
theorem resolver_idempotent (dex : ℤ) (bidBook askBook : List OrderBookEntry) :
    truncateOverlapEntries (truncateOverlapEntries bidBook askBook dex).1
      (truncateOverlapEntries bidBook askBook dex).2 dex =
    truncateOverlapEntries bidBook askBook dex := by
  unfold truncateOverlapEntries truncateOverlapEntriesDex truncateOverlapEntriesCentralised
  split_ifs with hd
  · exact truncateLoop_of_none (truncateLoop_post dexRemoveAsk _ bidBook askBook (le_refl _))
  · exact truncateLoop_of_none (truncateLoop_post centralisedRemoveAsk _ bidBook askBook (le_refl _))

/-- C8: both resolver loops terminate after at most `|bidBook| + |askBook|`
iterations, every iteration removes exactly one entry (iterations plus
remaining entries account exactly for the input entries), and on exit the
loop guard `crossExists` has failed: no cross remains or a side is empty. -/
theorem resolver_iteration_bound (bidBook askBook : List OrderBookEntry) :
    (truncateDexIterations bidBook askBook +
        (truncateOverlapEntriesDex bidBook askBook).1.length +
        (truncateOverlapEntriesDex bidBook askBook).2.length =
          bidBook.length + askBook.length ∧
      truncateDexIterations bidBook askBook ≤ bidBook.length + askBook.length ∧
      crossExists (truncateOverlapEntriesDex bidBook askBook).1
        (truncateOverlapEntriesDex bidBook askBook).2 = false) ∧
    (truncateCentralisedIterations bidBook askBook +
        (truncateOverlapEntriesCentralised bidBook askBook).1.length +
        (truncateOverlapEntriesCentralised bidBook askBook).2.length =
          bidBook.length + askBook.length ∧
      truncateCentralisedIterations bidBook askBook ≤ bidBook.length + askBook.length ∧
      crossExists (truncateOverlapEntriesCentralised bidBook askBook).1
        (truncateOverlapEntriesCentralised bidBook askBook).2 = false) := by
  constructor
  · refine ⟨?_, ?_, ?_⟩
    · exact truncateLoopSteps_spec dexRemoveAsk _ bidBook askBook
    · have := truncateLoopSteps_spec dexRemoveAsk (bidBook.length + askBook.length) bidBook askBook
      unfold truncateDexIterations
      omega
    · exact crossStep_none_iff.mp (truncateLoop_post dexRemoveAsk _ bidBook askBook (le_refl _))
  · refine ⟨?_, ?_, ?_⟩
    · exact truncateLoopSteps_spec centralisedRemoveAsk _ bidBook askBook
    · have := truncateLoopSteps_spec centralisedRemoveAsk (bidBook.length + askBook.length) bidBook askBook
      unfold truncateCentralisedIterations
      omega
    · exact crossStep_none_iff.mp (truncateLoop_post centralisedRemoveAsk _ bidBook askBook (le_refl _))

/-- C10: under either policy the resolver only removes entries, and only from
the top of the bid book and the bottom of the ask book: the output bid book
is an initial segment of the input bid book (the removed bids are its
maximal-price tail segment), the output ask book is a final segment of the
input ask book, and every surviving entry is kept verbatim. -/
theorem resolver_output_books_shrink (dex : ℤ) (bidBook askBook : List OrderBookEntry) :
    (∃ removedBids, (truncateOverlapEntries bidBook askBook dex).1 ++ removedBids = bidBook) ∧
    (∃ removedAsks, removedAsks ++ (truncateOverlapEntries bidBook askBook dex).2 = askBook) := by
  unfold truncateOverlapEntries truncateOverlapEntriesDex truncateOverlapEntriesCentralised
  split_ifs with hd
  · exact truncateLoop_append dexRemoveAsk _ bidBook askBook
  · exact truncateLoop_append centralisedRemoveAsk _ bidBook askBook


theorem dropLast_ne_self {l : List OrderBookEntry} (h : l ≠ []) : l.dropLast ≠ l := by
  intro heq
  have hlen := List.length_dropLast l
  rw [heq] at hlen
  have : l.length ≠ 0 := fun h0 => h (List.length_eq_zero.mp h0)
  omega

/-- C2: in a `truncateOverlapEntriesDex` loop iteration where a cross exists
(top bid price ≥ top ask price), the top ask entry is removed if and only if
the bid notional `topBid.amount * topBid.price` strictly exceeds the ask
notional `topAsk.amount * topAsk.price`; in every other crossing case,
including exactly equal notionals, the top bid entry is removed instead. -/
theorem dex_removal_policy (bidBook askBook : List OrderBookEntry)
    (topBid topAsk : OrderBookEntry)
    (hb : bidBook.getLast? = some topBid) (ha : askBook.head? = some topAsk)
    (hcross : topBid.price ≥ topAsk.price) :
    (crossStepDex bidBook askBook = some (bidBook, askBook.tail) ↔
      topBid.amount * topBid.price > topAsk.amount * topAsk.price) ∧
    (crossStepDex bidBook askBook = some (bidBook.dropLast, askBook) ↔
      ¬ topBid.amount * topBid.price > topAsk.amount * topAsk.price) := by
  have hne : bidBook.dropLast ≠ bidBook := dropLast_ne_self (ne_nil_of_getLast?_eq_some hb)
  unfold crossStepDex crossStep
  rw [hb, ha]
  dsimp only
  rw [if_pos hcross]
  by_cases hr : dexRemoveAsk topBid topAsk = true
  · have hcond : topBid.amount * topBid.price > topAsk.amount * topAsk.price :=
      of_decide_eq_true hr
    rw [if_pos hr]
    constructor
    · exact ⟨fun _ => hcond, fun _ => rfl⟩
    · constructor
      · intro hsome
        simp only [Option.some.injEq, Prod.mk.injEq] at hsome
        exact absurd hsome.1.symm hne
      · intro hnot
        exact absurd hcond hnot
  · have hcond : ¬ topBid.amount * topBid.price > topAsk.amount * topAsk.price := by
      intro hgt
      exact hr (decide_eq_true hgt)
    rw [if_neg hr]
    constructor
    · constructor
      · intro hsome
        simp only [Option.some.injEq, Prod.mk.injEq] at hsome
        exact absurd hsome.1 hne
      · intro hgt
        exact absurd hgt hcond
    · exact ⟨fun _ => hcond, fun _ => rfl⟩

/-- C2 witness: the equal-notional tie of the spec, bid (price 100, amount 1)
against ask (price 100, amount 1): the bid is removed. -/
theorem dex_removal_policy_witness :
    [OrderBookEntry.mk 100 1 1].getLast? = some ⟨100, 1, 1⟩ ∧
    [OrderBookEntry.mk 100 1 2].head? = some ⟨100, 1, 2⟩ ∧
    (OrderBookEntry.mk 100 1 1).price ≥ (OrderBookEntry.mk 100 1 2).price ∧
    ((crossStepDex [⟨100, 1, 1⟩] [⟨100, 1, 2⟩] =
        some ([⟨100, 1, 1⟩], [OrderBookEntry.mk 100 1 2].tail) ↔
      (OrderBookEntry.mk 100 1 1).amount * (OrderBookEntry.mk 100 1 1).price >
        (OrderBookEntry.mk 100 1 2).amount * (OrderBookEntry.mk 100 1 2).price) ∧
     (crossStepDex [⟨100, 1, 1⟩] [⟨100, 1, 2⟩] =
        some ([OrderBookEntry.mk 100 1 1].dropLast, [⟨100, 1, 2⟩]) ↔
      ¬ (OrderBookEntry.mk 100 1 1).amount * (OrderBookEntry.mk 100 1 1).price >
        (OrderBookEntry.mk 100 1 2).amount * (OrderBookEntry.mk 100 1 2).price)) :=
  ⟨by decide, by decide, by decide,
    dex_removal_policy [⟨100, 1, 1⟩] [⟨100, 1, 2⟩] ⟨100, 1, 1⟩ ⟨100, 1, 2⟩
      (by decide) (by decide) (by decide)⟩

/-- C3: in a `truncateOverlapEntriesCentralised` loop iteration where a cross
exists (top bid price ≥ top ask price), the top ask entry is removed if and
only if `topBid.updateId > topAsk.updateId`; otherwise, including when the
two update ids are equal, the top bid entry is removed. -/
theorem centralised_removal_policy (bidBook askBook : List OrderBookEntry)
    (topBid topAsk : OrderBookEntry)
    (hb : bidBook.getLast? = some topBid) (ha : askBook.head? = some topAsk)
    (hcross : topBid.price ≥ topAsk.price) :
    (crossStepCentralised bidBook askBook = some (bidBook, askBook.tail) ↔
      topBid.updateId > topAsk.updateId) ∧
    (crossStepCentralised bidBook askBook = some (bidBook.dropLast, askBook) ↔
      ¬ topBid.updateId > topAsk.updateId) := by
  have hne : bidBook.dropLast ≠ bidBook := dropLast_ne_self (ne_nil_of_getLast?_eq_some hb)
  unfold crossStepCentralised crossStep
  rw [hb, ha]
  dsimp only
  rw [if_pos hcross]
  by_cases hr : centralisedRemoveAsk topBid topAsk = true
  · have hcond : topBid.updateId > topAsk.updateId := of_decide_eq_true hr
    rw [if_pos hr]
    constructor
    · exact ⟨fun _ => hcond, fun _ => rfl⟩
    · constructor
      · intro hsome
        simp only [Option.some.injEq, Prod.mk.injEq] at hsome
        exact absurd hsome.1.symm hne
      · intro hnot
        exact absurd hcond hnot
  · have hcond : ¬ topBid.updateId > topAsk.updateId := by
      intro hgt
      exact hr (decide_eq_true hgt)
    rw [if_neg hr]
    constructor
    · constructor
      · intro hsome
        simp only [Option.some.injEq, Prod.mk.injEq] at hsome
        exact absurd hsome.1 hne
      · intro hgt
        exact absurd hgt hcond
    · exact ⟨fun _ => hcond, fun _ => rfl⟩

/-- C3 witness: the recency example of the spec, bid (price 101, updateId 5)
crossing ask (price 100, updateId 3): the ask is removed, which the final
conjunct exhibits concretely. -/
theorem centralised_removal_policy_witness :
    [OrderBookEntry.mk 101 1 5].getLast? = some ⟨101, 1, 5⟩ ∧
    [OrderBookEntry.mk 100 1 3].head? = some ⟨100, 1, 3⟩ ∧
    (OrderBookEntry.mk 101 1 5).price ≥ (OrderBookEntry.mk 100 1 3).price ∧
    ((crossStepCentralised [⟨101, 1, 5⟩] [⟨100, 1, 3⟩] =
        some ([⟨101, 1, 5⟩], [OrderBookEntry.mk 100 1 3].tail) ↔
      (OrderBookEntry.mk 101 1 5).updateId > (OrderBookEntry.mk 100 1 3).updateId) ∧
     (crossStepCentralised [⟨101, 1, 5⟩] [⟨100, 1, 3⟩] =
        some ([OrderBookEntry.mk 101 1 5].dropLast, [⟨100, 1, 3⟩]) ↔
      ¬ (OrderBookEntry.mk 101 1 5).updateId > (OrderBookEntry.mk 100 1 3).updateId)) ∧
    crossStepCentralised [⟨101, 1, 5⟩] [⟨100, 1, 3⟩] = some ([⟨101, 1, 5⟩], []) :=
  ⟨by decide, by decide, by decide,
    centralised_removal_policy [⟨101, 1, 5⟩] [⟨100, 1, 3⟩] ⟨101, 1, 5⟩ ⟨100, 1, 3⟩
      (by decide) (by decide) (by decide),
    by decide⟩

/-- C4 counterexample: with the centralised policy, one resolver call first
removes the stale top ask (updateId 3) and then removes the top bid (its
updateId 5 is older than the id 7 of the next ask), so the single call removes
entries from both sides. -/
theorem resolver_removes_from_both_sides :
    truncateOverlapEntriesCentralised [⟨100, 1, 5⟩] [⟨90, 1, 3⟩, ⟨95, 1, 7⟩] =
      ([], [⟨95, 1, 7⟩]) ∧
    (truncateOverlapEntriesCentralised [⟨100, 1, 5⟩] [⟨90, 1, 3⟩, ⟨95, 1, 7⟩]).1 ≠
      [⟨100, 1, 5⟩] ∧
    (truncateOverlapEntriesCentralised [⟨100, 1, 5⟩] [⟨90, 1, 3⟩, ⟨95, 1, 7⟩]).2 ≠
      [⟨90, 1, 3⟩, ⟨95, 1, 7⟩] := by
  decide

/-- C4 amended: every single loop iteration of either resolver removes exactly
one entry from exactly one side (the whole call, iterating, may remove entries
from both sides as `resolver_removes_from_both_sides` exhibits). -/
theorem resolver_iteration_one_sided
    (bidBook askBook bidBook2 askBook2 : List OrderBookEntry) :
    (crossStepDex bidBook askBook = some (bidBook2, askBook2) →
      (bidBook2 = bidBook ∧ askBook2 = askBook.tail ∧ askBook ≠ []) ∨
      (bidBook2 = bidBook.dropLast ∧ askBook2 = askBook ∧ bidBook ≠ [])) ∧
    (crossStepCentralised bidBook askBook = some (bidBook2, askBook2) →
      (bidBook2 = bidBook ∧ askBook2 = askBook.tail ∧ askBook ≠ []) ∨
      (bidBook2 = bidBook.dropLast ∧ askBook2 = askBook ∧ bidBook ≠ [])) :=
  ⟨fun h => crossStep_some_shape h, fun h => crossStep_some_shape h⟩

/-- C4 amended witness: a concrete centralised iteration removing the top ask. -/
theorem resolver_iteration_one_sided_witness :
    crossStepCentralised [⟨100, 1, 5⟩] [⟨90, 1, 3⟩, ⟨95, 1, 7⟩] =
      some ([⟨100, 1, 5⟩], [⟨95, 1, 7⟩]) ∧
    ((([⟨100, 1, 5⟩] : List OrderBookEntry) = [⟨100, 1, 5⟩] ∧
        ([⟨95, 1, 7⟩] : List OrderBookEntry) = [⟨90, 1, 3⟩, ⟨95, 1, 7⟩].tail ∧
        ([⟨90, 1, 3⟩, ⟨95, 1, 7⟩] : List OrderBookEntry) ≠ []) ∨
      (([⟨100, 1, 5⟩] : List OrderBookEntry) = [⟨100, 1, 5⟩].dropLast ∧
        ([⟨95, 1, 7⟩] : List OrderBookEntry) = [⟨90, 1, 3⟩, ⟨95, 1, 7⟩] ∧
        ([⟨100, 1, 5⟩] : List OrderBookEntry) ≠ [])) :=
  ⟨by decide,
    (resolver_iteration_one_sided [⟨100, 1, 5⟩] [⟨90, 1, 3⟩, ⟨95, 1, 7⟩]
      [⟨100, 1, 5⟩] [⟨95, 1, 7⟩]).2 (by decide)⟩


/-- C5 counterexample: under the `wings/cpp/LimitOrder.cpp` comparison (price
only, no tie-break), two distinct orders with equal price and distinct
`clientOrderID` compare as equivalent: neither is less than the other. -/
theorem wings_lt_equal_price_not_total :
    ¬ ltLimitOrderWings
        ⟨"A", "BTC-USD", true, "BTC", "USD", 100, 1, 0, 0, 0, "NIL"⟩
        ⟨"B", "BTC-USD", true, "BTC", "USD", 100, 1, 0, 0, 0, "NIL"⟩ ∧
    ¬ ltLimitOrderWings
        ⟨"B", "BTC-USD", true, "BTC", "USD", 100, 1, 0, 0, 0, "NIL"⟩
        ⟨"A", "BTC-USD", true, "BTC", "USD", 100, 1, 0, 0, 0, "NIL"⟩ ∧
    (LimitOrder.mk "A" "BTC-USD" true "BTC" "USD" 100 1 0 0 0 "NIL").clientOrderID ≠
      (LimitOrder.mk "B" "BTC-USD" true "BTC" "USD" 100 1 0 0 0 "NIL").clientOrderID ∧
    (⟨"A", "BTC-USD", true, "BTC", "USD", 100, 1, 0, 0, 0, "NIL"⟩ : LimitOrder) ≠
      ⟨"B", "BTC-USD", true, "BTC", "USD", 100, 1, 0, 0, 0, "NIL"⟩ := by
  decide

/-- C5 amended: the `hummingbot/core/cpp/LimitOrder.cpp` comparison is a
strict total order on orders with distinct `clientOrderID`: when prices
differ exactly one direction holds and it is decided by price ascending;
when prices are equal it is decided by lexicographic `clientOrderID`;
no two such orders compare as equivalent. -/
theorem limitOrder_lt_strict_total (a b : LimitOrder)
    (hid : a.clientOrderID ≠ b.clientOrderID) :
    (ltLimitOrder a b ∨ ltLimitOrder b a) ∧
    ¬ (ltLimitOrder a b ∧ ltLimitOrder b a) ∧
    (a.price ≠ b.price → (ltLimitOrder a b ↔ a.price < b.price)) ∧
    (a.price = b.price → (ltLimitOrder a b ↔ a.clientOrderID < b.clientOrderID)) := by
  unfold ltLimitOrder
  by_cases hp : a.price = b.price
  · rw [if_pos hp, if_pos hp.symm]
    refine ⟨lt_or_gt_of_ne hid, ?_, fun hne => absurd hp hne, fun _ => Iff.rfl⟩
    rintro ⟨h1, h2⟩
    exact absurd h2 (lt_asymm h1)
  · rw [if_neg hp, if_neg (fun h => hp h.symm)]
    refine ⟨lt_or_gt_of_ne hp, ?_, fun _ => Iff.rfl, fun heq => absurd heq hp⟩
    rintro ⟨h1, h2⟩
    exact absurd h2 (lt_asymm h1)

/-- C5 witness: two concrete orders with distinct ids and distinct prices. -/
theorem limitOrder_lt_strict_total_witness :
    (LimitOrder.mk "A" "BTC-USD" true "BTC" "USD" 100 1 0 0 0 "NIL").clientOrderID ≠
      (LimitOrder.mk "B" "BTC-USD" true "BTC" "USD" 101 1 0 0 0 "NIL").clientOrderID ∧
    ((ltLimitOrder ⟨"A", "BTC-USD", true, "BTC", "USD", 100, 1, 0, 0, 0, "NIL"⟩
        ⟨"B", "BTC-USD", true, "BTC", "USD", 101, 1, 0, 0, 0, "NIL"⟩ ∨
      ltLimitOrder ⟨"B", "BTC-USD", true, "BTC", "USD", 101, 1, 0, 0, 0, "NIL"⟩
        ⟨"A", "BTC-USD", true, "BTC", "USD", 100, 1, 0, 0, 0, "NIL"⟩) ∧
     ¬ (ltLimitOrder ⟨"A", "BTC-USD", true, "BTC", "USD", 100, 1, 0, 0, 0, "NIL"⟩
          ⟨"B", "BTC-USD", true, "BTC", "USD", 101, 1, 0, 0, 0, "NIL"⟩ ∧
        ltLimitOrder ⟨"B", "BTC-USD", true, "BTC", "USD", 101, 1, 0, 0, 0, "NIL"⟩
          ⟨"A", "BTC-USD", true, "BTC", "USD", 100, 1, 0, 0, 0, "NIL"⟩) ∧
     ((LimitOrder.mk "A" "BTC-USD" true "BTC" "USD" 100 1 0 0 0 "NIL").price ≠
          (LimitOrder.mk "B" "BTC-USD" true "BTC" "USD" 101 1 0 0 0 "NIL").price →
       (ltLimitOrder ⟨"A", "BTC-USD", true, "BTC", "USD", 100, 1, 0, 0, 0, "NIL"⟩
            ⟨"B", "BTC-USD", true, "BTC", "USD", 101, 1, 0, 0, 0, "NIL"⟩ ↔
         (LimitOrder.mk "A" "BTC-USD" true "BTC" "USD" 100 1 0 0 0 "NIL").price <
           (LimitOrder.mk "B" "BTC-USD" true "BTC" "USD" 101 1 0 0 0 "NIL").price)) ∧
     ((LimitOrder.mk "A" "BTC-USD" true "BTC" "USD" 100 1 0 0 0 "NIL").price =
          (LimitOrder.mk "B" "BTC-USD" true "BTC" "USD" 101 1 0 0 0 "NIL").price →
       (ltLimitOrder ⟨"A", "BTC-USD", true, "BTC", "USD", 100, 1, 0, 0, 0, "NIL"⟩
            ⟨"B", "BTC-USD", true, "BTC", "USD", 101, 1, 0, 0, 0, "NIL"⟩ ↔
         (LimitOrder.mk "A" "BTC-USD" true "BTC" "USD" 100 1 0 0 0 "NIL").clientOrderID <
           (LimitOrder.mk "B" "BTC-USD" true "BTC" "USD" 101 1 0 0 0 "NIL").clientOrderID))) :=
  ⟨by decide,
    limitOrder_lt_strict_total
      ⟨"A", "BTC-USD", true, "BTC", "USD", 100, 1, 0, 0, 0, "NIL"⟩
      ⟨"B", "BTC-USD", true, "BTC", "USD", 101, 1, 0, 0, 0, "NIL"⟩ (by decide)⟩

/-- C9: the `OrderExpirationEntry` comparison orders by
`expiration_timestamp` ascending, falls back to lexicographic `orderId` on
exactly equal timestamps, and is a strict total order on entries with
distinct `orderId`, so the earliest-expiring entry is always least. -/
theorem orderExpiration_lt_spec (a b : OrderExpirationEntry) :
    (a.expiration_timestamp < b.expiration_timestamp →
      ltOrderExpirationEntry a b ∧ ¬ ltOrderExpirationEntry b a) ∧
    (a.expiration_timestamp = b.expiration_timestamp →
      (ltOrderExpirationEntry a b ↔ a.orderId < b.orderId)) ∧
    (a.orderId ≠ b.orderId →
      (ltOrderExpirationEntry a b ∨ ltOrderExpirationEntry b a) ∧
      ¬ (ltOrderExpirationEntry a b ∧ ltOrderExpirationEntry b a)) := by
  unfold ltOrderExpirationEntry
  by_cases ht : a.expiration_timestamp = b.expiration_timestamp
  · rw [if_pos ht, if_pos ht.symm]
    refine ⟨fun hlt => absurd ht (ne_of_lt hlt), fun _ => Iff.rfl, fun hid => ⟨lt_or_gt_of_ne hid, ?_⟩⟩
    rintro ⟨h1, h2⟩
    exact absurd h2 (lt_asymm h1)
  · rw [if_neg ht, if_neg (fun h => ht h.symm)]
    refine ⟨fun hlt => ⟨hlt, lt_asymm hlt⟩, fun heq => absurd heq ht, fun hid => ⟨lt_or_gt_of_ne ht, ?_⟩⟩
    rintro ⟨h1, h2⟩
    exact absurd h2 (lt_asymm h1)

/-- C9 witness: an entry expiring at 1 precedes one expiring at 2. -/
theorem orderExpiration_lt_spec_witness :
    (OrderExpirationEntry.mk "BTC-USD" "X" 0 1).expiration_timestamp <
      (OrderExpirationEntry.mk "BTC-USD" "Y" 0 2).expiration_timestamp ∧
    (ltOrderExpirationEntry ⟨"BTC-USD", "X", 0, 1⟩ ⟨"BTC-USD", "Y", 0, 2⟩ ∧
      ¬ ltOrderExpirationEntry ⟨"BTC-USD", "Y", 0, 2⟩ ⟨"BTC-USD", "X", 0, 1⟩) :=
  ⟨by decide,
    (orderExpiration_lt_spec ⟨"BTC-USD", "X", 0, 1⟩ ⟨"BTC-USD", "Y", 0, 2⟩).1 (by decide)⟩

theorem insertEntry_filter_price :
    ∀ {side : List OrderBookEntry} (e : OrderBookEntry), OrderedBook side →
      (insertEntry side e).filter (fun x => decide (x.price = e.price)) = [e]
  | [], e, _ => by simp [insertEntry]
  | x :: rest, e, hs => by
    have htail : ∀ y ∈ rest, entryLt x y := (List.pairwise_cons.mp hs).1
    unfold insertEntry
    split_ifs with h1 h2
    · rw [List.filter_cons_of_pos (by simp)]
      have hall : ∀ y ∈ x :: rest, ¬ ((fun x => decide (x.price = e.price)) y = true) := by
        intro y hy
        simp only [decide_eq_true_eq]
        rcases List.mem_cons.mp hy with rfl | hy2
        · exact fun he => absurd h1 (by rw [he]; exact lt_irrefl _)
        · intro he
          have hxy : x.price < y.price := htail y hy2
          rw [he] at hxy
          exact absurd (lt_trans h1 hxy) (lt_irrefl _)
      rw [List.filter_eq_nil_iff.mpr hall]
    · rw [List.filter_cons_of_pos (by simp)]
      have hall : ∀ y ∈ rest, ¬ ((fun x => decide (x.price = e.price)) y = true) := by
        intro y hy
        simp only [decide_eq_true_eq]
        intro he
        have hxy : x.price < y.price := htail y hy
        rw [he, h2] at hxy
        exact absurd hxy (lt_irrefl _)
      rw [List.filter_eq_nil_iff.mpr hall]
    · rw [List.filter_cons_of_neg (by simpa using h2)]
      exact insertEntry_filter_price e (List.Pairwise.of_cons hs)

/-- C6 (spec-modelled `insertOrUpdate`): applying a feed update at a price
already present in an ordered side, with a non-zero amount, overwrites the
entry: afterwards the side holds exactly one entry at that price, carrying
the new amount and update id; an amount-zero update erases the entry at
that price, and is a no-op on a side with no entry at that price. -/
theorem insertOrUpdate_spec (side : List OrderBookEntry) (price amount : ℚ)
    (updateId : ℤ) (hs : OrderedBook side)
    (hmem : ∃ e ∈ side, e.price = price) (hamount : amount ≠ 0) :
    (insertOrUpdate side price amount updateId).filter
        (fun e => decide (e.price = price)) = [⟨price, amount, updateId⟩] ∧
    insertOrUpdate side price 0 updateId =
      side.filter (fun e => decide (e.price ≠ price)) ∧
    ∀ side2 : List OrderBookEntry, (∀ e ∈ side2, e.price ≠ price) →
      insertOrUpdate side2 price 0 updateId = side2 := by
  refine ⟨?_, ?_, ?_⟩
  · unfold insertOrUpdate
    rw [if_neg hamount]
    exact insertEntry_filter_price ⟨price, amount, updateId⟩ hs
  · unfold insertOrUpdate
    rw [if_pos rfl]
  · intro side2 hnone
    unfold insertOrUpdate
    rw [if_pos rfl]
    refine List.filter_eq_self.mpr ?_
    intro e he
    simpa using hnone e he

/-- C6 witness: overwriting the amount-1 entry at price 5 with amount 3. -/
theorem insertOrUpdate_spec_witness :
    OrderedBook [⟨5, 1, 1⟩, ⟨7, 2, 1⟩] ∧
    (∃ e ∈ ([⟨5, 1, 1⟩, ⟨7, 2, 1⟩] : List OrderBookEntry), e.price = 5) ∧
    (3 : ℚ) ≠ 0 ∧
    ((insertOrUpdate [⟨5, 1, 1⟩, ⟨7, 2, 1⟩] 5 3 9).filter
        (fun e => decide (e.price = 5)) = [⟨5, 3, 9⟩] ∧
      insertOrUpdate [⟨5, 1, 1⟩, ⟨7, 2, 1⟩] 5 0 9 =
        List.filter (fun e => decide (e.price ≠ 5)) [⟨5, 1, 1⟩, ⟨7, 2, 1⟩] ∧
      ∀ side2 : List OrderBookEntry, (∀ e ∈ side2, e.price ≠ 5) →
        insertOrUpdate side2 5 0 9 = side2) :=
  ⟨by decide, by decide, by decide,
    insertOrUpdate_spec [⟨5, 1, 1⟩, ⟨7, 2, 1⟩] 5 3 9 (by decide) (by decide) (by decide)⟩

end Hummingbot
